import Mathlib

/-!
Verification development for `pytorch_transformers/tokenization_roberta.py`.

Python strings are modelled as `List Char`; Python `int` as `Int`; lists as
`List`; a Python `dict` as an association list where a fresh assignment is a
prepended pair (so the most recent assignment shadows older ones, exactly as
`dict` assignment overwrites).  Fallible Python code (statements that can
raise) is modelled with `Option`/`Except`, `none`/`.error` standing for a
raised exception.
-/

/-- Convert a Lean string literal to the `List Char` representation used
throughout this development. -/
def chars (s : String) : List Char := s.data

/-- Whitespace test modelling Python's `\s` character class (and the
whitespace set of `str.split()` / `str.strip()` / `int()`) for the ASCII
whitespace characters; non-ASCII Unicode whitespace is not modelled, and no
input in this development contains it. -/
def isWs (c : Char) : Bool :=
  c = ' ' || c = '\t' || c = '\n' || c = '\r' || c = '\x0b' || c = '\x0c'

/-- Helper for `SPACE_NORMALIZER.sub(" ", line)`: the Boolean argument
records whether the previous character was whitespace, so that each maximal
whitespace run is replaced by a single `' '`. -/
def subWsAux : Bool → List Char → List Char
  | _, [] => []
  | prev, c :: rest =>
      if isWs c then
        (if prev then subWsAux true rest else ' ' :: subWsAux true rest)
      else c :: subWsAux false rest

/-- `SPACE_NORMALIZER.sub(" ", line)` (line 54 of the source): replace each
maximal run of whitespace with a single space. -/
def spaceNormalizerSub (l : List Char) : List Char := subWsAux false l

/-- Python `str.strip()`: drop whitespace from both ends. -/
def pyStrip (l : List Char) : List Char :=
  ((l.dropWhile isWs).reverse.dropWhile isWs).reverse

/-- Helper for argument-less Python `str.split()`: split on whitespace runs,
discarding empty pieces; `acc` holds the current word reversed. -/
def pySplitAux : List Char → List Char → List (List Char)
  | [], acc => if acc.isEmpty then [] else [acc.reverse]
  | c :: rest, acc =>
      if isWs c then
        (if acc.isEmpty then pySplitAux rest [] else acc.reverse :: pySplitAux rest [])
      else pySplitAux rest (c :: acc)

/-- Argument-less Python `str.split()`. -/
def pySplitWs (l : List Char) : List (List Char) := pySplitAux l []

/-- `tokenize_line` (lines 53-56 of the source): normalize whitespace runs,
strip the ends, split into words. -/
def tokenize_line (line : List Char) : List (List Char) :=
  pySplitWs (pyStrip (spaceNormalizerSub line))

/-- Python `' '.join(ws)`. -/
def joinSpace : List (List Char) → List Char
  | [] => []
  | [w] => w
  | w :: v :: ws => w ++ ' ' :: joinSpace (v :: ws)

/-- Helper for Python `str.split(sep)` with a non-empty separator: scan the
string left to right, cutting at each non-overlapping occurrence of `sep`.
The `Nat` argument is recursion fuel; `splitOnSep` passes the string's
length, which always suffices because every step either finishes or consumes
at least one character of a non-empty string. -/
def splitOnSepAux (sep : List Char) : Nat → List Char → List Char → List (List Char)
  | _, [], acc => [acc.reverse]
  | 0, s, acc => [acc.reverse ++ s]
  | fuel + 1, c :: rest, acc =>
      if sep.isPrefixOf (c :: rest) then
        acc.reverse :: splitOnSepAux sep fuel ((c :: rest).drop sep.length) []
      else splitOnSepAux sep fuel rest (c :: acc)

/-- Python `s.split(sep)` for a non-empty separator `sep` (keeps empty
pieces, unlike argument-less `split`). -/
def splitOnSep (sep s : List Char) : List (List Char) :=
  splitOnSepAux sep s.length s []

/-- Decimal digit character. -/
def digitChar : Nat → Char
  | 0 => '0' | 1 => '1' | 2 => '2' | 3 => '3' | 4 => '4'
  | 5 => '5' | 6 => '6' | 7 => '7' | 8 => '8' | _ => '9'

/-- Helper for decimal rendering of a natural number, with fuel (the fuel
`n + 1` always suffices since `n / 10 < n` for `n ≥ 10`). -/
def natDigitsAux : Nat → Nat → List Char → List Char
  | 0, _, acc => acc
  | fuel + 1, n, acc =>
      if n < 10 then digitChar n :: acc
      else natDigitsAux fuel (n / 10) (digitChar (n % 10) :: acc)

/-- Decimal rendering of a natural number. -/
def natToStr (n : Nat) : List Char := natDigitsAux (n + 1) n []

/-- Python `str(i)` for an integer `i`. -/
def intToStr (i : Int) : List Char :=
  if i < 0 then '-' :: natToStr i.natAbs else natToStr i.toNat

/-- Digits of a string read as a natural number. -/
def digitsToNat (l : List Char) : Nat :=
  l.foldl (fun a c => a * 10 + (c.toNat - '0'.toNat)) 0

/-- Python `int(s)` on a string: strip surrounding whitespace, then an
optional sign followed by a non-empty digit string; anything else raises
`ValueError`, modelled as `none`.  (Underscore digit grouping accepted by
CPython is not modelled; no input in this development uses it.) -/
def pyInt (s : List Char) : Option Int :=
  match pyStrip s with
  | [] => none
  | '+' :: rest =>
      if rest ≠ [] ∧ rest.all Char.isDigit then some (digitsToNat rest) else none
  | '-' :: rest =>
      if rest ≠ [] ∧ rest.all Char.isDigit then some (-(digitsToNat rest : Int)) else none
  | t => if t.all Char.isDigit then some (digitsToNat t) else none

/-- Python list indexing `l[i]` with an `int` index: nonnegative indices are
positions from the front, negative indices count from the back, and anything
out of range raises `IndexError` (modelled as `none`). -/
def pyGet (l : List α) (i : Int) : Option α :=
  let j : Int := if i < 0 then (l.length : Int) + i else i
  if 0 ≤ j then l[j.toNat]? else none

/-- Python slice `l[1:-1]`: the elements strictly between the first and the
last position, empty when the list has at most two elements. -/
def pySlice1Neg1 (l : List α) : List α := (l.take (l.length - 1)).drop 1

/-- Lookup in the association-list model of a Python `dict` (most recent
assignment first). -/
def lookupIdx (ind : List (List Char × Nat)) (w : List Char) : Option Nat :=
  (ind.find? (fun p => p.1 == w)).map Prod.snd

/-- The `Dictionary` class (lines 59-175 of the source): a mapping from
symbols to consecutive integers, from Facebook's fairseq. -/
structure Dictionary where
  unk_word : List Char
  pad_word : List Char
  eos_word : List Char
  symbols : List (List Char)
  count : List Int
  indices : List (List Char × Nat)
  bos_index : Nat
  pad_index : Nat
  eos_index : Nat
  unk_index : Nat
  nspecial : Nat

deriving instance DecidableEq for Dictionary

/-- `Dictionary.add_symbol` (lines 99-110): if the word is registered,
increment its count and return its existing index; otherwise append it at
the next index with the given initial count.  Returns the index together
with the updated dictionary (the source mutates `self`). -/
def Dictionary.add_symbol (d : Dictionary) (word : List Char) (n : Int) : Nat × Dictionary :=
  match lookupIdx d.indices word with
  | some idx => (idx, { d with count := d.count.set idx (d.count.getD idx 0 + n) })
  | none =>
      let idx := d.symbols.length
      (idx, { d with indices := (word, idx) :: d.indices,
                     symbols := d.symbols ++ [word],
                     count := d.count ++ [n] })

/-- `Dictionary.__init__` (lines 66-85): register `bos, pad, eos, unk` then
any extra special symbols, in that order, each via `add_symbol` with the
default increment 1; record the special indices and `nspecial`. -/
def Dictionary.init (pad eos unk bos : List Char) (extra_special_symbols : List (List Char)) :
    Dictionary :=
  let d0 : Dictionary :=
    { unk_word := unk, pad_word := pad, eos_word := eos,
      symbols := [], count := [], indices := [],
      bos_index := 0, pad_index := 0, eos_index := 0, unk_index := 0, nspecial := 0 }
  let r1 := d0.add_symbol bos 1
  let r2 := r1.2.add_symbol pad 1
  let r3 := r2.2.add_symbol eos 1
  let r4 := r3.2.add_symbol unk 1
  let d5 := extra_special_symbols.foldl (fun d s => (d.add_symbol s 1).2) r4.2
  { d5 with bos_index := r1.1, pad_index := r2.1, eos_index := r3.1, unk_index := r4.1,
            nspecial := d5.symbols.length }

/-- `Dictionary()` constructed with all default arguments
(`pad='<pad>', eos='</s>', unk='<unk>', bos='<s>'`, no extras), as done by
`Dictionary.load`. -/
def defaultDictionary : Dictionary :=
  Dictionary.init (chars "<pad>") (chars "</s>") (chars "<unk>") (chars "<s>") []

/-- `Dictionary.__getitem__` (lines 87-90): `if idx < len(self.symbols)`
index into `symbols` (Python indexing, so a negative `idx` counts from the
back and can raise `IndexError`), otherwise return the `unk` word. -/
def Dictionary.getItem (d : Dictionary) (idx : Int) : Option (List Char) :=
  if idx < (d.symbols.length : Int) then pyGet d.symbols idx
  else some d.unk_word

/-- `Dictionary.index` (lines 92-97): the index of a registered symbol, or
the `unk` index for an unregistered one. -/
def Dictionary.index (d : Dictionary) (sym : List Char) : Nat :=
  match lookupIdx d.indices sym with
  | some i => i
  | none => d.unk_index

/-- Python `line.rfind(' ')`: the highest index of `' '`, as `none` when
there is no space (the source compares the result with `-1`). -/
def rfindSpaceAux : List Char → Nat → Option Nat → Option Nat
  | [], _, best => best
  | c :: rest, i, best => rfindSpaceAux rest (i + 1) (if c = ' ' then some i else best)

/-- Python `line.rfind(' ')` as an `Option`. -/
def rfindSpace (l : List Char) : Option Nat := rfindSpaceAux l 0 none

/-- Errors raised by `Dictionary.add_from_file`: a line with no space
separator (`ValueError("Incorrect dictionary format ...")`), or a count
field that `int()` cannot parse (`ValueError`). -/
inductive DictErr
  | formatErr
  | valueErr
deriving DecidableEq

deriving instance DecidableEq for Except

/-- One iteration of the loop in `Dictionary.add_from_file`
(lines 147-155): find the last space, split the line into word and count,
parse the count, and append the entry directly — `self.indices[word]` is
assigned unconditionally (no duplicate check, unlike `add_symbol`). -/
def Dictionary.addLine (d : Dictionary) (line : List Char) : Except DictErr Dictionary :=
  match rfindSpace line with
  | none => .error .formatErr
  | some idx =>
      match pyInt (line.drop (idx + 1)) with
      | none => .error .valueErr
      | some cnt =>
          .ok { d with indices := (line.take idx, d.symbols.length) :: d.indices,
                       symbols := d.symbols ++ [line.take idx],
                       count := d.count ++ [cnt] }

/-- `Dictionary.add_from_file` (lines 126-155) on an already-opened source,
whose contents `f.read().splitlines()` are modelled as the list of lines.
The file-opening and encoding-error branch (lines 131-144) is I/O and is not
modelled; its text content reaches this loop unchanged. -/
def Dictionary.add_from_file (d : Dictionary) (lines : List (List Char)) :
    Except DictErr Dictionary :=
  lines.foldlM Dictionary.addLine d

/-- `Dictionary.load` (lines 112-124): default-construct a dictionary
(seeding the four default specials) and add the file's entries to it. -/
def Dictionary.load (lines : List (List Char)) : Except DictErr Dictionary :=
  defaultDictionary.add_from_file lines

/-- The word-by-word loop of `Dictionary.encode_line` (lines 165-172),
threading the mutated dictionary: each word is resolved via `add_symbol`
when `add_if_not_exist` and via `index` otherwise.  The `consumer` callback
of the source is a pure observation hook (it only receives `(word, idx)`)
and is not modelled. -/
def encodeWords (d : Dictionary) (ws : List (List Char)) (add_if_not_exist : Bool) :
    List Nat × Dictionary :=
  match ws with
  | [] => ([], d)
  | w :: rest =>
      let r := if add_if_not_exist then d.add_symbol w 1 else (d.index w, d)
      let rs := encodeWords r.2 rest add_if_not_exist
      (r.1 :: rs.1, rs.2)

/-- `Dictionary.encode_line` (lines 157-175) with the default
`line_tokenizer=tokenize_line`: tokenize the line, optionally reverse,
resolve every word to an id, optionally append the `eos` index. -/
def Dictionary.encode_line (d : Dictionary) (line : List Char)
    (add_if_not_exist append_eos reverse_order : Bool) : List Nat × Dictionary :=
  let words := tokenize_line line
  let words := if reverse_order then words.reverse else words
  let r := encodeWords d words add_if_not_exist
  (if append_eos then r.1 ++ [r.2.eos_index] else r.1, r.2)

/-- Modelled from the spec: the BPE segmenter contract of section 4.2 (the
`GPT2Tokenizer` collaborator lives in `tokenization_gpt2.py`, outside the
provided source).  The core treats it as an opaque bundle of total
conversion functions between texts, subword-token strings and merge-space
integer ids; `tokenize` also stands for the outer `self.tokenize` wrapper of
`PreTrainedTokenizer`, which only forwards to the segmenter's `_tokenize`. -/
structure GPT2Model where
  tokenize : List Char → List (List Char)
  convert_tokens_to_ids : List (List Char) → List Int
  convert_ids_to_tokens : List Int → List (List Char)
  convert_id_to_token : Int → List Char
  convert_tokens_to_string : List (List Char) → List Char

/-- The `cls_token` of the tokenizer, `bos_token="<s>"` by default. -/
def clsSym : List Char := chars "<s>"

/-- The `sep_token` of the tokenizer, `eos_token="</s>"` by default. -/
def sepSym : List Char := chars "</s>"

/-- The literal separator `' 2 2 '` hard-coded on line 253 of the source. -/
def sep22 : List Char := chars " 2 2 "

/-- `RobertaTokenizer.encode` (lines 198-212): wrap the primary text's
merge-space ids in `[cls_token] ... [sep_token]`, append every additional
text as `[sep_token] ... [sep_token]`, render everything with `str`, join
with single spaces and feed the line to `Dictionary.encode_line` with
`append_eos=False`.  Returns the id sequence with the mutated dictionary. -/
def RobertaTokenizer.encode (g : GPT2Model) (d : Dictionary)
    (text : List Char) (args : List (List Char)) : List Nat × Dictionary :=
  let bpe_sentence :=
    [clsSym] ++ (g.convert_tokens_to_ids (g.tokenize text)).map intToStr ++ [sepSym]
  let bpe_sentence := bpe_sentence ++ args.flatMap (fun s =>
    [sepSym] ++ (g.convert_tokens_to_ids (g.tokenize s)).map intToStr ++ [sepSym])
  d.encode_line (joinSpace bpe_sentence) true false false

/-- The segment-boundary recovery of line 253 of the source:
`' '.join([str(id) for id in ids]).split(' 2 2 ')` applied after
`ids = ids[1:-1]` (line 251). -/
def segmentStrings (ids : List Int) : List (List Char) :=
  splitOnSep sep22 (joinSpace ((pySlice1Neg1 ids).map intToStr))

/-- `list(map(int, example.split(' ')))` of line 253: `none` when some piece
does not parse as an integer (`ValueError`). -/
def parseSegment (s : List Char) : Option (List Int) :=
  (splitOnSep [' '] s).mapM pyInt

/-- `int(self.dictionary[id])` of lines 256/260: dictionary lookup (which can
raise `IndexError` for a far-negative id) followed by `int()` (which can
raise `ValueError` on a non-numeric symbol). -/
def dictToMergeId (d : Dictionary) (i : Int) : Option Int :=
  (d.getItem i).bind pyInt

/-- The result of `RobertaTokenizer.convert_ids_to_tokens`: either one flat
token list (single segment) or a list of per-segment token lists; the
`decode` test `any(isinstance(element, list) for element in ...)` is exactly
the distinction between these two shapes. -/
inductive Tokens
  | single : List (List Char) → Tokens
  | multi : List (List (List Char)) → Tokens
deriving DecidableEq

/-- `RobertaTokenizer.convert_ids_to_tokens` (lines 249-261): drop the first
and last id, recover segments by splitting the space-joined decimal
rendering on `' 2 2 '`, parse each segment back to integers, map each id
through the dictionary and `int()` to a merge-space id, and convert each
segment's ids with the GPT-2 segmenter.  The `skip_special_tokens` argument
is accepted and ignored, exactly as in the source. -/
def RobertaTokenizer.convert_ids_to_tokens (g : GPT2Model) (d : Dictionary)
    (ids : List Int) (skip_special_tokens : Bool) : Option Tokens := do
  let segs ← (segmentStrings ids).mapM parseSegment
  match segs with
  | [seg] => do
      let mids ← seg.mapM (dictToMergeId d)
      pure (Tokens.single (g.convert_ids_to_tokens mids))
  | _ => do
      let tss ← segs.mapM (fun seg => do
        let mids ← seg.mapM (dictToMergeId d)
        pure (g.convert_ids_to_tokens mids))
      pure (Tokens.multi tss)

/-- The result of `RobertaTokenizer.decode`: one text for a single segment,
a list of texts for multiple segments. -/
inductive DecodeResult
  | one : List Char → DecodeResult
  | many : List (List Char) → DecodeResult
deriving DecidableEq

/-- `RobertaTokenizer.decode` (lines 214-233).  `cleanFn` stands for the
external `clean_up_tokenization` helper of `tokenization_utils.py` (out of
scope per the spec).  In the multi-segment branch the source appends to
`texts` inside the `if clean_up_tokenization_spaces:` block, so with the
flag off nothing is ever appended; the fold below reproduces that shape
faithfully. -/
def RobertaTokenizer.decode (g : GPT2Model) (cleanFn : List Char → List Char)
    (d : Dictionary) (token_ids : List Int)
    (skip_special_tokens clean_up_tokenization_spaces : Bool) : Option DecodeResult := do
  let filtered ← RobertaTokenizer.convert_ids_to_tokens g d token_ids skip_special_tokens
  match filtered with
  | Tokens.multi elements =>
      let texts := elements.foldl (fun texts element =>
        let text := g.convert_tokens_to_string element
        if clean_up_tokenization_spaces then texts ++ [cleanFn text] else texts) []
      pure (DecodeResult.many texts)
  | Tokens.single toks =>
      let text := g.convert_tokens_to_string toks
      if clean_up_tokenization_spaces then pure (DecodeResult.one (cleanFn text))
      else pure (DecodeResult.one text)

/-- `RobertaTokenizer._convert_id_to_token` (lines 238-244): fetch the
symbol (outside the `try`), and inside the `try` parse it as an integer and
look the merge-space id up in the segmenter; the bare `except` returns the
symbol itself.  The segmenter lookup is modelled as total, so the only
modelled exception inside the `try` is the `int()` parse failure. -/
def RobertaTokenizer.convert_id_to_token (g : GPT2Model) (d : Dictionary)
    (index : Int) : Option (List Char) := do
  let symbol ← d.getItem index
  match pyInt symbol with
  | some idx => pure (g.convert_id_to_token idx)
  | none => pure symbol

/-- Modelled from the spec: a concrete instance of the section-4.2 segmenter
contract, used only to evaluate the tokenizer pipeline on concrete inputs.
It treats each text as a single subword token, with merge-space ids 100 for
`hello` and 200 for `world`. -/
def toyTokenToId (t : List Char) : Int :=
  if t = chars "hello" then 100 else if t = chars "world" then 200 else 0

/-- Inverse of `toyTokenToId` on its two known ids. -/
def toyIdToToken (i : Int) : List Char :=
  if i = 100 then chars "hello" else if i = 200 then chars "world" else chars "x"

/-- Modelled from the spec: the toy segmenter instance. -/
def toyGPT2 : GPT2Model where
  tokenize := fun t => [t]
  convert_tokens_to_ids := fun ts => ts.map toyTokenToId
  convert_ids_to_tokens := fun l => l.map toyIdToToken
  convert_id_to_token := toyIdToToken
  convert_tokens_to_string := joinSpace

/-- The structural invariant behind the spec's
`symbols[index_of[s]] == s`: every pair recorded in `indices` points at a
position of `symbols` holding exactly its key. -/
def dictWf (d : Dictionary) : Bool :=
  d.indices.all (fun p => d.symbols[p.2]? == some p.1)

/-- The count currently recorded for a word: the `count` entry at the word's
registered index, `0` for an unregistered word. -/
def recordedCount (d : Dictionary) (w : List Char) : Int :=
  ((lookupIdx d.indices w).map (fun i => d.count.getD i 0)).getD 0

/-- A dictionary-file line that `add_from_file` accepts: it has a space, and
the text after its last space parses as an integer. -/
def lineOk (l : List Char) : Bool :=
  ((rfindSpace l).map (fun k => (pyInt (l.drop (k + 1))).isSome)).getD false

/-- The symbol part of a dictionary-file line (everything before the last
space). -/
def lineWord (l : List Char) : List Char := l.take ((rfindSpace l).getD 0)

/-- The count part of a dictionary-file line (the parsed integer after the
last space). -/
def lineCnt (l : List Char) : Int := (pyInt (l.drop ((rfindSpace l).getD 0 + 1))).getD 0

/-- The dictionary state reached by one `add_from_file` line on a line that
parses: the entry is appended raw and `indices[word]` is reassigned. -/
def lineStep (d : Dictionary) (l : List Char) : Dictionary :=
  { d with indices := (lineWord l, d.symbols.length) :: d.indices,
           symbols := d.symbols ++ [lineWord l],
           count := d.count ++ [lineCnt l] }

/-- The concrete two-segment run used to exercise `decode(encode(...))`:
`encode("hello", "world")` against the default dictionary with the toy
segmenter. -/
def c3run : List Nat × Dictionary :=
  RobertaTokenizer.encode toyGPT2 defaultDictionary (chars "hello") [chars "world"]

theorem pySlice1Neg1_eq_dropLast (l : List α) : pySlice1Neg1 l = (l.drop 1).dropLast := by
  simp [pySlice1Neg1, List.dropLast_eq_take, List.drop_take, List.length_drop]

theorem lookupIdx_mem {ind : List (List Char × Nat)} {w : List Char} {i : Nat}
    (h : lookupIdx ind w = some i) : (w, i) ∈ ind := by
  unfold lookupIdx at h
  cases hf : ind.find? (fun p => p.1 == w) with
  | none => rw [hf] at h; simp at h
  | some q =>
      rw [hf] at h
      simp only [Option.map_some', Option.some.injEq] at h
      have hm := List.mem_of_find?_eq_some hf
      have hq := List.find?_some hf
      simp only [beq_iff_eq] at hq
      have hqe : q = (w, i) := by
        cases q with
        | mk a b => simp_all
      rw [hqe] at hm
      exact hm

theorem dictWf_lookup {d : Dictionary} {w : List Char} {i : Nat}
    (hwf : dictWf d = true) (h : lookupIdx d.indices w = some i) :
    d.symbols[i]? = some w := by
  have hm := lookupIdx_mem h
  unfold dictWf at hwf
  rw [List.all_eq_true] at hwf
  have := hwf _ hm
  simpa using this

/-- C5: constructing a `Dictionary` with the default special symbols
registers `bos, pad, eos, unk` in that exact order, so `<s>` gets ID 0,
`<pad>` ID 1, `</s>` ID 2 and `<unk>` ID 3, with `nspecial` equal to the
resulting symbol count. -/
theorem C5_default_special_order :
    defaultDictionary.symbols = [chars "<s>", chars "<pad>", chars "</s>", chars "<unk>"] ∧
    defaultDictionary.bos_index = 0 ∧ defaultDictionary.pad_index = 1 ∧
    defaultDictionary.eos_index = 2 ∧ defaultDictionary.unk_index = 3 ∧
    defaultDictionary.index (chars "<s>") = 0 ∧
    defaultDictionary.index (chars "<pad>") = 1 ∧
    defaultDictionary.index (chars "</s>") = 2 ∧
    defaultDictionary.index (chars "<unk>") = 3 ∧
    defaultDictionary.nspecial = defaultDictionary.symbols.length := by decide

/-- C8 counterexample: `-2` is outside the dense range `0..3` of the default
dictionary, yet `__getitem__` returns `</s>` (Python negative indexing), not
the `unk` string; and `-5` raises `IndexError` instead of never failing. -/
theorem C8_counterexample :
    defaultDictionary.getItem (-2) = some (chars "</s>") ∧
    defaultDictionary.getItem (-2) ≠ some defaultDictionary.unk_word ∧
    defaultDictionary.getItem (-5) = none := by decide

/-- C8 amended: for every integer id at or above the number of symbols,
`__getitem__` returns the `unk` word and never fails; ids below the dense
range instead follow Python negative indexing and can raise `IndexError`. -/
theorem C8_amended_unk_fallback (d : Dictionary) (i : Int)
    (h : (d.symbols.length : Int) ≤ i) : d.getItem i = some d.unk_word := by
  unfold Dictionary.getItem
  rw [if_neg (by omega)]

/-- Witness for C8: the default dictionary has 4 symbols and id 10 resolves
to the `unk` word. -/
theorem C8_witness :
    ((defaultDictionary.symbols.length : Int) ≤ 10) ∧
    defaultDictionary.getItem 10 = some defaultDictionary.unk_word :=
  ⟨by decide, C8_amended_unk_fallback defaultDictionary 10 (by decide)⟩

/-- C9: whenever `dictionary[index]` yields a stored symbol that does not
parse as an integer, `_convert_id_to_token` returns that symbol unchanged
(never a segmenter lookup) and does not fail. -/
theorem C9_nonnumeric_fallback (g : GPT2Model) (d : Dictionary) (i : Int) (s : List Char)
    (hs : d.getItem i = some s) (hp : pyInt s = none) :
    RobertaTokenizer.convert_id_to_token g d i = some s := by
  simp [RobertaTokenizer.convert_id_to_token, hs, hp]

/-- Witness for C9: id 0 of the default dictionary stores `<s>`, which does
not parse as an integer and is returned verbatim. -/
theorem C9_witness :
    defaultDictionary.getItem 0 = some (chars "<s>") ∧ pyInt (chars "<s>") = none ∧
    RobertaTokenizer.convert_id_to_token toyGPT2 defaultDictionary 0 = some (chars "<s>") :=
  ⟨by decide, by decide,
    C9_nonnumeric_fallback toyGPT2 defaultDictionary 0 (chars "<s>") (by decide) (by decide)⟩

/-- C10: on any id sequence with fewer than three elements, nothing remains
after the unconditional first/last drop, so the joined string is empty, the
single recovered segment is the empty string, and `int('')` raises — both
`convert_ids_to_tokens` and `decode` fail instead of returning an empty
text. -/
theorem C10_short_input_error (g : GPT2Model) (d : Dictionary) (cf : List Char → List Char)
    (ids : List Int) (b1 b2 : Bool) (h : ids.length < 3) :
    RobertaTokenizer.convert_ids_to_tokens g d ids b1 = none ∧
    RobertaTokenizer.decode g cf d ids b1 b2 = none := by
  match ids, h with
  | [], _ => exact ⟨rfl, rfl⟩
  | [a], _ => exact ⟨rfl, rfl⟩
  | [a, b], _ => exact ⟨rfl, rfl⟩
  | a :: b :: c :: t, h => simp at h; omega

/-- Witness for C10: the empty id sequence makes `decode` fail. -/
theorem C10_witness :
    ([] : List Int).length < 3 ∧
    RobertaTokenizer.decode toyGPT2 (fun t => t) defaultDictionary [] false true = none :=
  ⟨by decide,
    (C10_short_input_error toyGPT2 defaultDictionary (fun t => t) [] false true (by decide)).2⟩

/-- C2: `convert_ids_to_tokens` ignores `skip_special_tokens` (the first and
last id are dropped unconditionally), and the recovered segment strings are
exactly the space-joined decimal renderings of the remaining ids split on
the literal substring `' 2 2 '`. -/
theorem C2_unconditional_drop_and_split (g : GPT2Model) (d : Dictionary)
    (ids : List Int) (b : Bool) :
    RobertaTokenizer.convert_ids_to_tokens g d ids b =
      RobertaTokenizer.convert_ids_to_tokens g d ids false ∧
    segmentStrings ids =
      splitOnSep sep22 (joinSpace (((ids.drop 1).dropLast).map intToStr)) := by
  refine ⟨rfl, ?_⟩
  unfold segmentStrings
  rw [pySlice1Neg1_eq_dropLast]

/-- C3 evaluated at its failing input: `encode("hello", "world")` produces
`[0, 4, 2, 2, 5, 2]`, and decoding it with
`clean_up_tokenization_spaces=False` returns an empty list instead of one
string per recovered segment (with the flag on, the two segment texts are
returned) — the multi-segment loop appends to `texts` only inside the
cleanup branch. -/
theorem C3_decode_flag_bug :
    c3run.1 = [0, 4, 2, 2, 5, 2] ∧
    RobertaTokenizer.decode toyGPT2 (fun t => t) c3run.2
        (c3run.1.map (fun n => (n : Int))) false false = some (DecodeResult.many []) ∧
    RobertaTokenizer.decode toyGPT2 (fun t => t) c3run.2
        (c3run.1.map (fun n => (n : Int))) false true
      = some (DecodeResult.many [chars "hello", chars "world"]) := by decide

/-- C7 counterexample: `<s>` is already registered (with count 1) in the
default dictionary, so after two `add_symbol('<s>', 1)` calls its recorded
count is 3, not the sum `1 + 1` of the increments passed — although both
calls do return the same ID 0. -/
theorem C7_counterexample :
    ((defaultDictionary.add_symbol (chars "<s>") 1).2.add_symbol (chars "<s>") 1).2.count[0]? ≠
      some (1 + 1) ∧
    (defaultDictionary.add_symbol (chars "<s>") 1).1 = 0 ∧
    ((defaultDictionary.add_symbol (chars "<s>") 1).2.add_symbol (chars "<s>") 1).1 = 0 := by
  decide


theorem lookupIdx_cons_self (ind : List (List Char × Nat)) (w : List Char) (j : Nat) :
    lookupIdx ((w, j) :: ind) w = some j := by
  unfold lookupIdx
  rw [List.find?_cons_of_pos _ (by simp)]
  rfl

theorem lookupIdx_cons_ne {w s : List Char} (ind : List (List Char × Nat)) (j : Nat)
    (h : w ≠ s) : lookupIdx ((w, j) :: ind) s = lookupIdx ind s := by
  unfold lookupIdx
  rw [List.find?_cons_of_neg _ (by simpa using h)]

theorem add_symbol_fst_of_mem {d : Dictionary} {w : List Char} {i : Nat}
    (hl : lookupIdx d.indices w = some i) (n : Int) : (d.add_symbol w n).1 = i := by
  simp [Dictionary.add_symbol, hl]

theorem add_symbol_indices_of_mem {d : Dictionary} {w : List Char} {i : Nat}
    (hl : lookupIdx d.indices w = some i) (n : Int) :
    (d.add_symbol w n).2.indices = d.indices := by
  simp [Dictionary.add_symbol, hl]

theorem add_symbol_symbols_of_mem {d : Dictionary} {w : List Char} {i : Nat}
    (hl : lookupIdx d.indices w = some i) (n : Int) :
    (d.add_symbol w n).2.symbols = d.symbols := by
  simp [Dictionary.add_symbol, hl]

theorem add_symbol_count_of_mem {d : Dictionary} {w : List Char} {i : Nat}
    (hl : lookupIdx d.indices w = some i) (n : Int) :
    (d.add_symbol w n).2.count = d.count.set i (d.count.getD i 0 + n) := by
  simp [Dictionary.add_symbol, hl]

theorem add_symbol_fst_of_not_mem {d : Dictionary} {w : List Char}
    (hl : lookupIdx d.indices w = none) (n : Int) :
    (d.add_symbol w n).1 = d.symbols.length := by
  simp [Dictionary.add_symbol, hl]

theorem add_symbol_indices_of_not_mem {d : Dictionary} {w : List Char}
    (hl : lookupIdx d.indices w = none) (n : Int) :
    (d.add_symbol w n).2.indices = (w, d.symbols.length) :: d.indices := by
  simp [Dictionary.add_symbol, hl]

theorem add_symbol_symbols_of_not_mem {d : Dictionary} {w : List Char}
    (hl : lookupIdx d.indices w = none) (n : Int) :
    (d.add_symbol w n).2.symbols = d.symbols ++ [w] := by
  simp [Dictionary.add_symbol, hl]

theorem add_symbol_count_of_not_mem {d : Dictionary} {w : List Char}
    (hl : lookupIdx d.indices w = none) (n : Int) :
    (d.add_symbol w n).2.count = d.count ++ [n] := by
  simp [Dictionary.add_symbol, hl]

theorem lookupIdx_add_symbol {d : Dictionary} {s : List Char} {i : Nat}
    (h : lookupIdx d.indices s = some i) (w : List Char) (n : Int) :
    lookupIdx (d.add_symbol w n).2.indices s = some i := by
  cases hl : lookupIdx d.indices w with
  | some j => rw [add_symbol_indices_of_mem hl]; exact h
  | none =>
      rw [add_symbol_indices_of_not_mem hl]
      have hne : w ≠ s := by
        intro he
        rw [he, h] at hl
        cases hl
      rw [lookupIdx_cons_ne _ _ hne]
      exact h

theorem getD_set_self {l : List Int} {i : Nat} (h : i < l.length) (v : Int) :
    (l.set i v).getD i 0 = v := by
  rw [List.getD_eq_getElem?_getD, List.getElem?_set_self h]
  rfl

theorem getD_append_self {l : List Int} (v : Int) : (l ++ [v]).getD l.length 0 = v := by
  rw [List.getD_eq_getElem?_getD, List.getElem?_append_right (Nat.le_refl _)]
  simp

/-- C7 amended: two `add_symbol` calls with the same word return the same ID
both times, and the word's recorded count afterwards equals its previously
recorded count (zero for a fresh word) plus the sum of the increments
passed. -/
theorem C7_amended_add_symbol_twice (d : Dictionary) (w : List Char) (n1 n2 : Int)
    (hlen : d.count.length = d.symbols.length) (hwf : dictWf d = true) :
    (d.add_symbol w n1).1 = ((d.add_symbol w n1).2.add_symbol w n2).1 ∧
    recordedCount ((d.add_symbol w n1).2.add_symbol w n2).2 w
      = recordedCount d w + (n1 + n2) := by
  cases hl : lookupIdx d.indices w with
  | some i =>
      have hb : d.symbols[i]? = some w := dictWf_lookup hwf hl
      have hil : i < d.symbols.length := (List.getElem?_eq_some.mp hb).1
      have hic : i < d.count.length := by omega
      have hl1 : lookupIdx (d.add_symbol w n1).2.indices w = some i := by
        rw [add_symbol_indices_of_mem hl]; exact hl
      constructor
      · rw [add_symbol_fst_of_mem hl, add_symbol_fst_of_mem hl1]
      · unfold recordedCount
        rw [add_symbol_indices_of_mem hl1, add_symbol_indices_of_mem hl, hl,
            add_symbol_count_of_mem hl1, add_symbol_count_of_mem hl]
        have hic2 : i < (d.count.set i (d.count.getD i 0 + n1)).length := by
          simpa using hic
        simp only [Option.map_some', Option.getD_some]
        rw [getD_set_self hic2, getD_set_self hic]
        ring
  | none =>
      have hl1 : lookupIdx (d.add_symbol w n1).2.indices w = some d.symbols.length := by
        rw [add_symbol_indices_of_not_mem hl]
        exact lookupIdx_cons_self _ _ _
      constructor
      · rw [add_symbol_fst_of_not_mem hl, add_symbol_fst_of_mem hl1]
      · unfold recordedCount
        rw [add_symbol_indices_of_mem hl1, add_symbol_indices_of_not_mem hl,
            lookupIdx_cons_self, hl, add_symbol_count_of_mem hl1,
            add_symbol_count_of_not_mem hl]
        have hlc : d.symbols.length < (d.count ++ [n1]).length := by
          simp [← hlen]
        simp only [Option.map_some', Option.getD_some, Option.map_none', Option.getD_none]
        rw [getD_set_self hlc]
        rw [← hlen, getD_append_self n1]
        ring

/-- Witness for C7: adding the fresh word `zz` twice with increments 2 and 3
yields the same ID twice and recorded count `0 + (2 + 3)`. -/
theorem C7_witness :
    defaultDictionary.count.length = defaultDictionary.symbols.length ∧
    dictWf defaultDictionary = true ∧
    ((defaultDictionary.add_symbol (chars "zz") 2).1
        = ((defaultDictionary.add_symbol (chars "zz") 2).2.add_symbol (chars "zz") 3).1 ∧
      recordedCount
          ((defaultDictionary.add_symbol (chars "zz") 2).2.add_symbol (chars "zz") 3).2
          (chars "zz")
        = recordedCount defaultDictionary (chars "zz") + (2 + 3)) :=
  ⟨by decide, by decide,
    C7_amended_add_symbol_twice defaultDictionary (chars "zz") 2 3 (by decide) (by decide)⟩

theorem dictWf_of_push {X d : Dictionary} (hwf : dictWf d = true) {w : List Char}
    (hi : X.indices = (w, d.symbols.length) :: d.indices)
    (hs : X.symbols = d.symbols ++ [w]) : dictWf X = true := by
  unfold dictWf at hwf ⊢
  rw [hi, hs, List.all_eq_true]
  rw [List.all_eq_true] at hwf
  intro p hp
  rcases List.mem_cons.mp hp with h | h
  · subst h
    simp only [beq_iff_eq]
    show (d.symbols ++ [w])[d.symbols.length]? = some w
    rw [List.getElem?_append_right (Nat.le_refl _)]
    simp
  · have hq := hwf p h
    simp only [beq_iff_eq] at hq ⊢
    have hb : p.2 < d.symbols.length := (List.getElem?_eq_some.mp hq).1
    rw [List.getElem?_append_left hb]
    exact hq

theorem dictWf_add_symbol {d : Dictionary} (hwf : dictWf d = true) (w : List Char) (n : Int) :
    dictWf (d.add_symbol w n).2 = true := by
  cases hl : lookupIdx d.indices w with
  | some i =>
      unfold dictWf at hwf ⊢
      rw [add_symbol_indices_of_mem hl, add_symbol_symbols_of_mem hl]
      exact hwf
  | none =>
      exact dictWf_of_push hwf (add_symbol_indices_of_not_mem hl n)
        (add_symbol_symbols_of_not_mem hl n)

theorem dictWf_lineStep {d : Dictionary} (hwf : dictWf d = true) (l : List Char) :
    dictWf (lineStep d l) = true :=
  dictWf_of_push hwf rfl rfl

theorem dictWf_addLine {d d2 : Dictionary} {l : List Char} (hwf : dictWf d = true)
    (h : d.addLine l = .ok d2) : dictWf d2 = true := by
  unfold Dictionary.addLine at h
  split at h
  · cases h
  · split at h
    · cases h
    · simp only [Except.ok.injEq] at h
      subst h
      exact dictWf_of_push hwf rfl rfl

theorem dictWf_add_from_file : ∀ (lines : List (List Char)) (d d2 : Dictionary),
    dictWf d = true → d.add_from_file lines = .ok d2 → dictWf d2 = true := by
  intro lines
  induction lines with
  | nil =>
      intro d d2 hwf h
      unfold Dictionary.add_from_file at h
      simp only [List.foldlM_nil, pure] at h
      cases h
      exact hwf
  | cons l ls ih =>
      intro d d2 hwf h
      unfold Dictionary.add_from_file at h ih
      rw [List.foldlM_cons] at h
      cases ha : d.addLine l with
      | error e => rw [ha] at h; cases h
      | ok dmid =>
          rw [ha] at h
          exact ih dmid d2 (dictWf_addLine hwf ha) h

theorem dictWf_encodeWords : ∀ (ws : List (List Char)) (d : Dictionary) (b : Bool),
    dictWf d = true → dictWf (encodeWords d ws b).2 = true := by
  intro ws
  induction ws with
  | nil => intro d b hwf; exact hwf
  | cons w rest ih =>
      intro d b hwf
      unfold encodeWords
      cases b with
      | true => exact ih _ _ (dictWf_add_symbol hwf w 1)
      | false => exact ih _ _ hwf

theorem lookupIdx_encodeWords {s : List Char} {i : Nat} :
    ∀ (ws : List (List Char)) (d : Dictionary) (b : Bool),
    lookupIdx d.indices s = some i →
    lookupIdx (encodeWords d ws b).2.indices s = some i := by
  intro ws
  induction ws with
  | nil => intro d b h; exact h
  | cons w rest ih =>
      intro d b h
      unfold encodeWords
      cases b with
      | true => exact ih _ _ (lookupIdx_add_symbol h w 1)
      | false => exact ih _ _ h

theorem getItem_of_lookup {d : Dictionary} {s : List Char} {i : Nat}
    (hwf : dictWf d = true) (hl : lookupIdx d.indices s = some i) :
    d.getItem (d.index s : Int) = some s := by
  have hb : d.symbols[i]? = some s := dictWf_lookup hwf hl
  have hil : i < d.symbols.length := (List.getElem?_eq_some.mp hb).1
  unfold Dictionary.index
  rw [hl]
  unfold Dictionary.getItem
  rw [if_pos (show ((i : Nat) : Int) < ((d.symbols.length : Nat) : Int) by exact_mod_cast hil)]
  simp only [pyGet]
  rw [if_neg (show ¬ ((i : Int) < 0) by omega)]
  rw [if_pos (Int.natCast_nonneg i)]
  rw [Int.toNat_natCast]
  exact hb

/-- C6 counterexample: after loading the line `a 1` the symbol `a` has ID 4,
but processing a duplicate line `a 2` through `add_from_file` re-registers
`a` and `index` subsequently returns 5 — the ID returned for a registered
symbol is not stable across every dictionary operation. -/
theorem C6_counterexample :
    (defaultDictionary.add_from_file [chars "a 1"]).map (fun d => d.index (chars "a"))
      = Except.ok 4 ∧
    (defaultDictionary.add_from_file [chars "a 1", chars "a 2"]).map
        (fun d => d.index (chars "a")) = Except.ok 5 := by decide

/-- C6 amended: in every well-formed dictionary state (an invariant holding
for the constructed dictionary and preserved by `add_symbol`,
`add_from_file` — duplicate lines included — and `encode_line`), the
round-trip `symbol_at(index_of(s)) == s` holds for every registered symbol
`s`; moreover `index_of(s)` is unchanged by any `add_symbol` call.  (Unlike
`add_symbol`, an `add_from_file` line that re-registers `s` redirects
`index_of(s)` to the new duplicate entry, so ID stability under every
operation fails; the round-trip still holds afterwards.) -/
theorem C6_amended_roundtrip (d : Dictionary) (hwf : dictWf d = true) :
    (∀ s i, lookupIdx d.indices s = some i →
        d.getItem (d.index s : Int) = some s) ∧
    (∀ w n, dictWf (d.add_symbol w n).2 = true ∧
        (∀ s i, lookupIdx d.indices s = some i →
            lookupIdx (d.add_symbol w n).2.indices s = some i)) ∧
    (∀ lines d2, d.add_from_file lines = Except.ok d2 → dictWf d2 = true) ∧
    (∀ line b1 b2 b3, dictWf (d.encode_line line b1 b2 b3).2 = true) := by
  refine ⟨?_, ?_, ?_, ?_⟩
  · intro s i hl
    exact getItem_of_lookup hwf hl
  · intro w n
    exact ⟨dictWf_add_symbol hwf w n, fun s i hl => lookupIdx_add_symbol hl w n⟩
  · intro lines d2 h
    exact dictWf_add_from_file lines d d2 hwf h
  · intro line b1 b2 b3
    exact dictWf_encodeWords _ _ _ hwf

/-- Witness for C6: the default dictionary is well-formed and the round-trip
holds for its registered symbol `<s>`. -/
theorem C6_witness :
    dictWf defaultDictionary = true ∧
    defaultDictionary.getItem (defaultDictionary.index (chars "<s>") : Int)
      = some (chars "<s>") :=
  ⟨by decide,
    (C6_amended_roundtrip defaultDictionary (by decide)).1 (chars "<s>") 0 (by decide)⟩

theorem addLine_of_lineOk {d : Dictionary} {l : List Char} (h : lineOk l = true) :
    d.addLine l = .ok (lineStep d l) := by
  unfold lineOk at h
  cases hr : rfindSpace l with
  | none => rw [hr] at h; simp at h
  | some k =>
      rw [hr] at h
      simp only [Option.map_some', Option.getD_some, Option.isSome_iff_exists] at h
      obtain ⟨c, hp⟩ := h
      unfold Dictionary.addLine lineStep lineWord lineCnt
      simp [hr, hp]

theorem add_from_file_ok : ∀ (lines : List (List Char)) (d : Dictionary),
    (∀ l ∈ lines, lineOk l = true) →
    d.add_from_file lines = .ok (lines.foldl lineStep d) := by
  intro lines
  induction lines with
  | nil => intro d _; rfl
  | cons l ls ih =>
      intro d h
      unfold Dictionary.add_from_file at ih ⊢
      rw [List.foldlM_cons, addLine_of_lineOk (h l (List.mem_cons_self l ls))]
      show List.foldlM Dictionary.addLine (lineStep d l) ls
        = Except.ok (ls.foldl lineStep (lineStep d l))
      exact ih (lineStep d l) (fun x hx => h x (List.mem_cons_of_mem l hx))

theorem foldl_lineStep_symbols : ∀ (lines : List (List Char)) (d : Dictionary),
    (lines.foldl lineStep d).symbols = d.symbols ++ lines.map lineWord := by
  intro lines
  induction lines with
  | nil => intro d; simp
  | cons l ls ih =>
      intro d
      rw [List.foldl_cons, ih, List.map_cons]
      show (lineStep d l).symbols ++ ls.map lineWord = _
      simp [lineStep]

/-- C1 counterexample: loading the single well-formed line `a 1` yields a
dictionary with 5 entries (the 4 seeded specials plus the file entry), and
the file entry `a` has ID 4 — not a 1-entry dictionary with `a` at ID 0. -/
theorem C1_counterexample :
    (Dictionary.load [chars "a 1"]).map
        (fun d => (d.symbols.length, lookupIdx d.indices (chars "a")))
      = Except.ok (5, some 4) := by decide

/-- C1 amended: for a source whose every line has a space and an
integer-parsing count field, `Dictionary.load` succeeds and produces a
dictionary of `N + 4` entries: the four default specials at IDs 0-3
followed by the `N` file entries at IDs `4 .. N+3` in file order. -/
theorem C1_amended_load_ids (lines : List (List Char))
    (h : ∀ l ∈ lines, lineOk l = true) :
    ∃ d, Dictionary.load lines = Except.ok d ∧
      d.symbols = defaultDictionary.symbols ++ lines.map lineWord ∧
      d.symbols.length = 4 + lines.length ∧
      (∀ i, d.symbols[4 + i]? = (lines.map lineWord)[i]?) := by
  have h4 : defaultDictionary.symbols.length = 4 := by decide
  refine ⟨lines.foldl lineStep defaultDictionary, ?_, ?_, ?_, ?_⟩
  · exact add_from_file_ok lines defaultDictionary h
  · exact foldl_lineStep_symbols lines defaultDictionary
  · rw [foldl_lineStep_symbols, List.length_append, List.length_map, h4]
  · intro i
    rw [foldl_lineStep_symbols,
        List.getElem?_append_right (by rw [h4]; omega)]
    rw [h4]
    congr 1
    omega

/-- Witness for C1: loading the two lines `a 1` and `bb 22` gives 6 entries,
with `a` at ID 4 and `bb` at ID 5. -/
theorem C1_witness :
    (∀ l ∈ [chars "a 1", chars "bb 22"], lineOk l = true) ∧
    (∃ d, Dictionary.load [chars "a 1", chars "bb 22"] = Except.ok d ∧
      d.symbols = defaultDictionary.symbols
          ++ [chars "a 1", chars "bb 22"].map lineWord ∧
      d.symbols.length = 4 + ([chars "a 1", chars "bb 22"] : List (List Char)).length ∧
      (∀ i, d.symbols[4 + i]? = ([chars "a 1", chars "bb 22"].map lineWord)[i]?)) :=
  ⟨by decide, C1_amended_load_ids _ (by decide)⟩

/-- A word that survives a join-then-retokenize round trip: non-empty and
free of whitespace characters. -/
def goodWord (w : List Char) : Prop := w ≠ [] ∧ ∀ c ∈ w, isWs c = false

theorem isWs_digitChar (n : Nat) : isWs (digitChar n) = false := by
  unfold digitChar
  split <;> rfl

theorem natDigitsAux_no_ws : ∀ (fuel n : Nat) (acc : List Char),
    (∀ c ∈ acc, isWs c = false) → ∀ c ∈ natDigitsAux fuel n acc, isWs c = false := by
  intro fuel
  induction fuel with
  | zero => intro n acc hacc c hc; exact hacc c hc
  | succ f ih =>
      intro n acc hacc c hc
      unfold natDigitsAux at hc
      by_cases h10 : n < 10
      · rw [if_pos h10] at hc
        rcases List.mem_cons.mp hc with h | h
        · subst h; exact isWs_digitChar n
        · exact hacc c h
      · rw [if_neg h10] at hc
        refine ih (n / 10) _ ?_ c hc
        intro c2 hc2
        rcases List.mem_cons.mp hc2 with h | h
        · subst h; exact isWs_digitChar _
        · exact hacc c2 h

theorem natDigitsAux_eq_nil : ∀ (fuel n : Nat) (acc : List Char),
    natDigitsAux fuel n acc = [] → acc = [] ∧ fuel = 0 := by
  intro fuel
  induction fuel with
  | zero => intro n acc h; exact ⟨h, rfl⟩
  | succ f ih =>
      intro n acc h
      unfold natDigitsAux at h
      by_cases h10 : n < 10
      · rw [if_pos h10] at h; cases h
      · rw [if_neg h10] at h
        exact absurd (ih (n / 10) _ h).1 (by simp)

theorem natToStr_ne_nil (n : Nat) : natToStr n ≠ [] := by
  intro h
  have h2 := natDigitsAux_eq_nil (n + 1) n [] h
  omega

theorem natToStr_no_ws (n : Nat) : ∀ c ∈ natToStr n, isWs c = false :=
  natDigitsAux_no_ws _ n [] (by intro c hc; cases hc)

theorem intToStr_ne_nil (i : Int) : intToStr i ≠ [] := by
  unfold intToStr
  by_cases h : i < 0
  · rw [if_pos h]; simp
  · rw [if_neg h]; exact natToStr_ne_nil _

theorem intToStr_no_ws (i : Int) : ∀ c ∈ intToStr i, isWs c = false := by
  unfold intToStr
  by_cases h : i < 0
  · rw [if_pos h]
    intro c hc
    rcases List.mem_cons.mp hc with h2 | h2
    · subst h2; rfl
    · exact natToStr_no_ws _ c h2
  · rw [if_neg h]
    exact natToStr_no_ws _

theorem goodWord_intToStr (i : Int) : goodWord (intToStr i) :=
  ⟨intToStr_ne_nil i, intToStr_no_ws i⟩


theorem subWsAux_cons_of_neg {c : Char} (hc : isWs c = false) (b : Bool) (r : List Char) :
    subWsAux b (c :: r) = c :: subWsAux false r := by
  simp only [subWsAux, hc]
  simp

theorem subWsAux_append {w : List Char} (hw : ∀ c ∈ w, isWs c = false) (hne : w ≠ []) :
    ∀ (b : Bool) (r : List Char), subWsAux b (w ++ r) = w ++ subWsAux false r := by
  induction w with
  | nil => exact absurd rfl hne
  | cons c w2 ih =>
      intro b r
      have hc : isWs c = false := hw c (List.mem_cons_self c w2)
      cases w2 with
      | nil => simpa using subWsAux_cons_of_neg hc b r
      | cons c2 w3 =>
          rw [List.cons_append, subWsAux_cons_of_neg hc b (c2 :: w3 ++ r)]
          rw [ih (fun x hx => hw x (List.mem_cons_of_mem c hx)) (by simp) false r]
          rfl

theorem subWs_joinSpace : ∀ (ws : List (List Char)), (∀ w ∈ ws, goodWord w) →
    ∀ (b : Bool), subWsAux b (joinSpace ws) = joinSpace ws := by
  intro ws
  induction ws with
  | nil => intro _ b; rfl
  | cons w vs ih =>
      intro h b
      have hw : goodWord w := h w (List.mem_cons_self w vs)
      cases vs with
      | nil =>
          show subWsAux b w = w
          have h2 := subWsAux_append hw.2 hw.1 b []
          rw [List.append_nil] at h2
          rw [h2, show subWsAux false [] = [] from rfl, List.append_nil]
      | cons v vs2 =>
          show subWsAux b (w ++ ' ' :: joinSpace (v :: vs2)) = w ++ ' ' :: joinSpace (v :: vs2)
          rw [subWsAux_append hw.2 hw.1 b]
          congr 1
          show subWsAux false (' ' :: joinSpace (v :: vs2)) = ' ' :: joinSpace (v :: vs2)
          simp only [subWsAux, show isWs ' ' = true from rfl]
          simp only [if_true, Bool.false_eq_true, if_false]
          congr 1
          exact ih (fun x hx => h x (List.mem_cons_of_mem w hx)) true

theorem joinSpace_head : ∀ (ws : List (List Char)), (∀ w ∈ ws, goodWord w) → ws ≠ [] →
    ∃ c t, joinSpace ws = c :: t ∧ isWs c = false := by
  intro ws
  induction ws with
  | nil => intro _ h; exact absurd rfl h
  | cons w vs _ =>
      intro h _
      obtain ⟨hne, hnws⟩ := h w (List.mem_cons_self w vs)
      cases hwc : w with
      | nil => exact absurd hwc hne
      | cons c w2 =>
          have hc : isWs c = false := by
            refine hnws c ?_
            rw [hwc]
            exact List.mem_cons_self c w2
          cases vs with
          | nil => exact ⟨c, w2, rfl, hc⟩
          | cons v vs2 => exact ⟨c, w2 ++ ' ' :: joinSpace (v :: vs2), rfl, hc⟩

theorem joinSpace_reverse_head : ∀ (ws : List (List Char)), (∀ w ∈ ws, goodWord w) →
    ws ≠ [] → ∃ c t, (joinSpace ws).reverse = c :: t ∧ isWs c = false := by
  intro ws
  induction ws with
  | nil => intro _ h; exact absurd rfl h
  | cons w vs ih =>
      intro h _
      obtain ⟨hne, hnws⟩ := h w (List.mem_cons_self w vs)
      cases vs with
      | nil =>
          show ∃ c t, w.reverse = c :: t ∧ isWs c = false
          cases hwr : w.reverse with
          | nil => exact absurd (by simpa using hwr) hne
          | cons c t =>
              refine ⟨c, t, rfl, ?_⟩
              refine hnws c ?_
              rw [← List.mem_reverse, hwr]
              exact List.mem_cons_self c t
      | cons v vs2 =>
          obtain ⟨c, t, hct, hc⟩ :=
            ih (fun x hx => h x (List.mem_cons_of_mem w hx)) (by simp)
          refine ⟨c, t ++ ' ' :: w.reverse, ?_, hc⟩
          show (w ++ ' ' :: joinSpace (v :: vs2)).reverse = _
          rw [List.reverse_append, List.reverse_cons, hct]
          simp

theorem pyStrip_joinSpace (ws : List (List Char)) (h : ∀ w ∈ ws, goodWord w) :
    pyStrip (joinSpace ws) = joinSpace ws := by
  cases hws : ws with
  | nil => rfl
  | cons w vs =>
      rw [← hws]
      have hwsne : ws ≠ [] := by rw [hws]; simp
      obtain ⟨c, t, hct, hc⟩ := joinSpace_head ws h hwsne
      obtain ⟨c2, t2, hct2, hc2⟩ := joinSpace_reverse_head ws h hwsne
      unfold pyStrip
      rw [hct, List.dropWhile_cons_of_neg (by simp [hc]), ← hct]
      rw [hct2, List.dropWhile_cons_of_neg (by simp [hc2]), ← hct2, List.reverse_reverse]

theorem pySplitAux_append {w : List Char} (hw : ∀ c ∈ w, isWs c = false) :
    ∀ (r acc : List Char), pySplitAux (w ++ r) acc = pySplitAux r (w.reverse ++ acc) := by
  induction w with
  | nil => intro r acc; rfl
  | cons c w2 ih =>
      intro r acc
      have hc : isWs c = false := hw c (List.mem_cons_self c w2)
      rw [List.cons_append]
      have hred : pySplitAux (c :: (w2 ++ r)) acc = pySplitAux (w2 ++ r) (c :: acc) := by
        simp only [pySplitAux, hc]
        simp
      rw [hred, ih (fun x hx => hw x (List.mem_cons_of_mem c hx)) r (c :: acc)]
      congr 1
      simp

theorem pySplit_joinSpace : ∀ (ws : List (List Char)), (∀ w ∈ ws, goodWord w) →
    pySplitAux (joinSpace ws) [] = ws := by
  intro ws
  induction ws with
  | nil => intro _; rfl
  | cons w vs ih =>
      intro h
      have hw : goodWord w := h w (List.mem_cons_self w vs)
      cases vs with
      | nil =>
          show pySplitAux w [] = [w]
          have h2 := pySplitAux_append hw.2 [] []
          rw [List.append_nil, List.append_nil] at h2
          rw [h2]
          show (if w.reverse.isEmpty then ([] : List (List Char)) else [w.reverse.reverse]) = [w]
          rw [if_neg (by simpa using hw.1)]
          rw [List.reverse_reverse]
      | cons v vs2 =>
          show pySplitAux (w ++ ' ' :: joinSpace (v :: vs2)) [] = w :: v :: vs2
          rw [pySplitAux_append hw.2, List.append_nil]
          have hredne : w.reverse.isEmpty = false := by simpa using hw.1
          simp only [pySplitAux, show isWs ' ' = true from rfl, hredne]
          simp only [if_true, Bool.false_eq_true, if_false]
          rw [List.reverse_reverse]
          rw [ih (fun x hx => h x (List.mem_cons_of_mem w hx))]

theorem tokenize_line_joinSpace (ws : List (List Char)) (h : ∀ w ∈ ws, goodWord w) :
    tokenize_line (joinSpace ws) = ws := by
  unfold tokenize_line pySplitWs spaceNormalizerSub
  rw [subWs_joinSpace ws h false, pyStrip_joinSpace ws h, pySplit_joinSpace ws h]

theorem encodeWords_cons_true (d : Dictionary) (w : List Char) (rest : List (List Char)) :
    encodeWords d (w :: rest) true =
      ((d.add_symbol w 1).1 :: (encodeWords (d.add_symbol w 1).2 rest true).1,
       (encodeWords (d.add_symbol w 1).2 rest true).2) := rfl

theorem encodeWords_head {d : Dictionary} {w : List Char} {i : Nat}
    (hl : lookupIdx d.indices w = some i) (rest : List (List Char)) :
    (encodeWords d (w :: rest) true).1.head? = some i := by
  rw [encodeWords_cons_true]
  rw [List.head?_cons, add_symbol_fst_of_mem hl]

theorem encodeWords_last {s : List Char} {i : Nat} :
    ∀ (ws : List (List Char)) (d : Dictionary), ws.getLast? = some s →
    lookupIdx d.indices s = some i →
    (encodeWords d ws true).1.getLast? = some i := by
  intro ws
  induction ws with
  | nil => intro d h _; cases h
  | cons w rest ih =>
      intro d hlast hl
      cases rest with
      | nil =>
          have hws : w = s := by simpa using hlast
          subst hws
          rw [encodeWords_cons_true]
          show ((d.add_symbol w 1).1 :: []).getLast? = some i
          rw [List.getLast?_singleton, add_symbol_fst_of_mem hl]
      | cons w2 rest2 =>
          have hlast2 : (w2 :: rest2).getLast? = some s := by
            rw [← List.getLast?_cons_cons]
            exact hlast
          rw [encodeWords_cons_true]
          rw [encodeWords_cons_true ((d.add_symbol w 1).2) w2 rest2]
          rw [List.getLast?_cons_cons]
          have h2 := ih (d.add_symbol w 1).2 hlast2 (lookupIdx_add_symbol hl w 1)
          rw [encodeWords_cons_true ((d.add_symbol w 1).2) w2 rest2] at h2
          exact h2

theorem getLast?_sep_chunks (f : List Char → List (List Char)) :
    ∀ (xs : List (List Char)) (l0 : List (List Char)),
    ((l0 ++ [sepSym]) ++ xs.flatMap (fun s => [sepSym] ++ f s ++ [sepSym])).getLast?
      = some sepSym := by
  intro xs
  induction xs with
  | nil => intro l0; simp [List.getLast?_concat]
  | cons x xs2 ih =>
      intro l0
      rw [List.flatMap_cons]
      have hassoc : (l0 ++ [sepSym]) ++ (([sepSym] ++ f x ++ [sepSym])
            ++ xs2.flatMap (fun s => [sepSym] ++ f s ++ [sepSym]))
          = ((((l0 ++ [sepSym]) ++ [sepSym]) ++ f x) ++ [sepSym])
            ++ xs2.flatMap (fun s => [sepSym] ++ f s ++ [sepSym]) := by
        simp [List.append_assoc]
      rw [hassoc]
      exact ih (((l0 ++ [sepSym]) ++ [sepSym]) ++ f x)

theorem encode_bpe_good (g : GPT2Model) (text : List Char) (args : List (List Char)) :
    ∀ w ∈ ([clsSym] ++ (g.convert_tokens_to_ids (g.tokenize text)).map intToStr ++ [sepSym])
        ++ args.flatMap (fun s =>
            [sepSym] ++ (g.convert_tokens_to_ids (g.tokenize s)).map intToStr ++ [sepSym]),
    goodWord w := by
  have hcls : goodWord clsSym := by constructor <;> decide
  have hsep : goodWord sepSym := by constructor <;> decide
  intro w hw
  rcases List.mem_append.mp hw with h1 | h2
  · rcases List.mem_append.mp h1 with h3 | h4
    · rcases List.mem_append.mp h3 with h5 | h6
      · rw [List.mem_singleton.mp h5]; exact hcls
      · obtain ⟨j, _, rfl⟩ := List.mem_map.mp h6
        exact goodWord_intToStr j
    · rw [List.mem_singleton.mp h4]; exact hsep
  · obtain ⟨s, _, hmem⟩ := List.mem_flatMap.mp h2
    rcases List.mem_append.mp hmem with h3 | h4
    · rcases List.mem_append.mp h3 with h5 | h6
      · rw [List.mem_singleton.mp h5]; exact hsep
      · obtain ⟨j, _, rfl⟩ := List.mem_map.mp h6
        exact goodWord_intToStr j
    · rw [List.mem_singleton.mp h4]; exact hsep

/-- C4: for every primary text and tuple of additional texts, the id
sequence returned by `encode` begins with the dictionary ID of the cls
marker `<s>` and ends with the dictionary ID of the sep marker `</s>`. -/
theorem C4_encode_markers (g : GPT2Model) (d : Dictionary) (text : List Char)
    (args : List (List Char)) (ci si : Nat)
    (hc : lookupIdx d.indices clsSym = some ci)
    (hs : lookupIdx d.indices sepSym = some si) :
    (RobertaTokenizer.encode g d text args).1.head? = some ci ∧
    (RobertaTokenizer.encode g d text args).1.getLast? = some si := by
  have htok := tokenize_line_joinSpace _ (encode_bpe_good g text args)
  constructor
  · show (encodeWords d (tokenize_line (joinSpace (([clsSym]
        ++ (g.convert_tokens_to_ids (g.tokenize text)).map intToStr ++ [sepSym])
        ++ args.flatMap (fun s =>
            [sepSym] ++ (g.convert_tokens_to_ids (g.tokenize s)).map intToStr
              ++ [sepSym])))) true).1.head? = some ci
    rw [htok]
    show (encodeWords d (clsSym
        :: ((g.convert_tokens_to_ids (g.tokenize text)).map intToStr ++ [sepSym]
            ++ args.flatMap (fun s =>
              [sepSym] ++ (g.convert_tokens_to_ids (g.tokenize s)).map intToStr
                ++ [sepSym]))) true).1.head? = some ci
    exact encodeWords_head hc _
  · show (encodeWords d (tokenize_line (joinSpace (([clsSym]
        ++ (g.convert_tokens_to_ids (g.tokenize text)).map intToStr ++ [sepSym])
        ++ args.flatMap (fun s =>
            [sepSym] ++ (g.convert_tokens_to_ids (g.tokenize s)).map intToStr
              ++ [sepSym])))) true).1.getLast? = some si
    rw [htok]
    exact encodeWords_last _ d
      (getLast?_sep_chunks
        (fun s => (g.convert_tokens_to_ids (g.tokenize s)).map intToStr) args
        ([clsSym] ++ (g.convert_tokens_to_ids (g.tokenize text)).map intToStr)) hs

/-- Witness for C4: encoding `hello` with one additional text `world`
against the default dictionary starts with ID 0 (`<s>`) and ends with ID 2
(`</s>`). -/
theorem C4_witness :
    lookupIdx defaultDictionary.indices clsSym = some 0 ∧
    lookupIdx defaultDictionary.indices sepSym = some 2 ∧
    ((RobertaTokenizer.encode toyGPT2 defaultDictionary (chars "hello")
        [chars "world"]).1.head? = some 0 ∧
      (RobertaTokenizer.encode toyGPT2 defaultDictionary (chars "hello")
        [chars "world"]).1.getLast? = some 2) :=
  ⟨by decide, by decide,
    C4_encode_markers toyGPT2 defaultDictionary (chars "hello") [chars "world"] 0 2
      (by decide) (by decide)⟩
